import Mathlib

/-!
Shallow embedding of the Harvest time-entry analytics engine
(`web-app/src/App.jsx`): row normalisation, cascading filters, weekly
utilisation buckets, alert/recognition classification and the internal
client → project → task rollup, together with proofs about them.

Modelling conventions:
* Calendar dates are whole-day numbers (days since the Unix epoch, an `Int`);
  a JavaScript `Date` holding an invalid value is modelled as `Option.none`.
* The instant `now` read by the date-range filter is a rational measured in
  days, so that `|now - date|` is the millisecond difference divided by the
  `oneDay` constant of `differenceInDays`, fraction included.
* JavaScript numbers are modelled by `ℚ`; `parseFloat` and `new Date(string)`
  are modelled by executable parsers returning `Option`.
* JavaScript objects used as maps (and `Map` instances) are modelled as
  insertion-ordered association lists, matching JS key-insertion order.
-/

namespace Harvest

/-- JavaScript `getDay` on a day number: day 0 (1970-01-01) was a Thursday,
so `getDay` is `(d + 4) mod 7`, with 0 = Sunday, 1 = Monday, ..., 6 = Saturday. -/
def jsDay (d : ℤ) : ℤ := (d + 4) % 7

/-- `startOfWeek` from App.jsx: `diff = d.getDate() - day + (day === 0 ? -6 : 1)`
followed by `d.setDate(diff)`; `setDate` carries under/overflow across months,
so on day numbers the result is the date moved back by `day - 1` days
(6 days when the date falls on a Sunday). -/
def startOfWeek (d : ℤ) : ℤ := d - jsDay d + (if jsDay d = 0 then -6 else 1)

/-- C2: `startOfWeek` maps a date on Sunday to the Monday six days earlier and
any other date to the date minus (weekday - 1) days with Monday = weekday 1;
the result is always a Monday; in particular a Wednesday (weekday 3) maps to
the Monday two days earlier of the same week. -/
theorem startOfWeek_monday (d : ℤ) :
    startOfWeek d = (if jsDay d = 0 then d - 6 else d - (jsDay d - 1)) ∧
    jsDay (startOfWeek d) = 1 ∧
    (jsDay d = 3 → startOfWeek d = d - 2) ∧
    (jsDay d = 0 → startOfWeek d = d - 6) := by
  simp only [startOfWeek, jsDay]
  by_cases h : (d + 4) % 7 = 0
  · simp only [if_pos h]
    exact ⟨by omega, by omega, by omega, by omega⟩
  · simp only [if_neg h]
    exact ⟨by omega, by omega, by omega, by omega⟩

/-- Witness for C2: day 6 (1970-01-07) is a Wednesday and maps to Monday
day 4; day 3 (1970-01-04) is a Sunday and maps to Monday day -3. -/
theorem startOfWeek_monday_witness :
    startOfWeek 6 = 6 - 2 ∧ startOfWeek 3 = 3 - 6 :=
  ⟨(startOfWeek_monday 6).2.2.1 (by decide),
   (startOfWeek_monday 3).2.2.2 (by decide)⟩

/-- Value of a digit list, most significant digit first. -/
def digitsToNat (ds : List Char) : ℕ :=
  ds.foldl (fun a c => a * 10 + (c.toNat - 48)) 0

/-- Value of a fractional digit string: `fracVal [1, 2]` is `0.12`. -/
def fracVal (ds : List Char) : ℚ :=
  ds.foldr (fun c a => (((c.toNat - 48 : ℕ) : ℚ) + a) / 10) 0

/-- Lexical part of the parseFloat model: skip leading whitespace, optional
sign, decimal digits with an optional fractional part; trailing characters
are ignored (parseFloat reads the longest numeric prefix). Returns the sign
flag and the integer and fraction digit lists, or `none` (NaN) when no digit
is found. -/
def parseFloatScan (cs0 : List Char) : Option (Bool × List Char × List Char) :=
  let cs := cs0.dropWhile Char.isWhitespace
  let neg := cs.head? == some '-'
  let cs2 := if cs.head? == some '-' || cs.head? == some '+' then cs.tail else cs
  let ip := cs2.takeWhile Char.isDigit
  let rest := cs2.dropWhile Char.isDigit
  let fp := if rest.head? == some '.' then rest.tail.takeWhile Char.isDigit else []
  if ip = [] ∧ fp = [] then none
  else some (neg, ip, fp)

/-- Model of JavaScript `parseFloat`: the numeric value of the scanned sign,
integer digits and fraction digits; `none` is NaN. Exponent notation and
Infinity are not modelled. -/
def jsParseFloat (s : String) : Option ℚ :=
  (parseFloatScan s.toList).map
    (fun p => (if p.1 then (-1 : ℚ) else 1) * ((digitsToNat p.2.1 : ℚ) + fracVal p.2.2))

/-- Gregorian leap-year test. -/
def isLeap (y : ℤ) : Bool := (y % 4 = 0 ∧ y % 100 ≠ 0) ∨ y % 400 = 0

/-- Number of days of month `m` in year `y`. -/
def daysInMonth (y m : ℤ) : ℤ :=
  if m = 2 then (if isLeap y then 29 else 28)
  else if m = 4 ∨ m = 6 ∨ m = 9 ∨ m = 11 then 30 else 31

/-- Day number (days since 1970-01-01) of a civil date, by the standard
era-based conversion. -/
def daysFromCivil (y m d : ℤ) : ℤ :=
  let y2 := if m ≤ 2 then y - 1 else y
  let era := y2 / 400
  let yoe := y2 - era * 400
  let doy := (153 * (if 2 < m then m - 3 else m + 9) + 2) / 5 + d - 1
  let doe := yoe * 365 + yoe / 4 - yoe / 100 + doy
  era * 146097 + doe - 719468

/-- Split a character list at every occurrence of a separator character. -/
def splitChars (sep : Char) : List Char → List (List Char)
  | [] => [[]]
  | c :: cs =>
    if c = sep then [] :: splitChars sep cs
    else
      match splitChars sep cs with
      | [] => [[c]]
      | g :: gs => (c :: g) :: gs

/-- Model of `new Date(string)` restricted to the ISO `YYYY-MM-DD` date-only
format (the format of Harvest CSV date columns): four digits, dash, two
digits, dash, two digits, with in-range month and day, mapped to a day
number. Every other string is modelled as an Invalid Date (`none`), as
`new Date` yields an Invalid Date on strings such as `"hello"`. -/
def jsDateParse (s : String) : Option ℤ :=
  match splitChars '-' s.toList with
  | [ys, ms, ds] =>
    if ys.length = 4 ∧ ms.length = 2 ∧ ds.length = 2 ∧
        ((ys ++ ms ++ ds).all Char.isDigit) = true then
      let y : ℤ := digitsToNat ys
      let m : ℤ := digitsToNat ms
      let d : ℤ := digitsToNat ds
      if 1 ≤ m ∧ m ≤ 12 ∧ 1 ≤ d ∧ d ≤ daysInMonth y m then
        some (daysFromCivil y m d)
      else none
    else none
  | _ => none

/-- One parsed CSV row with the required Harvest columns, as raw strings.
A column absent from the CSV is modelled as the empty string (both are falsy
field accesses in JavaScript for the purposes of this pipeline). -/
structure RawRow where
  date : String
  client : String
  project : String
  task : String
  hours : String
  billable : String
  firstName : String
  lastName : String
  deriving Repr, DecidableEq

/-- The fixed internal-client list `INTERNAL_CLIENTS` from App.jsx. -/
def INTERNAL_CLIENTS : List String := ["Onica", "Rackspace Innovation In Action"]

/-- A normalized entry as produced by `processedData`: the spread raw fields
plus the computed Full Name, the parsed Date (possibly invalid), the parsed
Hours and the Is Internal flag. -/
structure ProcessedRow where
  fullName : String
  date : Option ℤ
  client : String
  project : String
  task : String
  hours : ℚ
  billable : String
  isInternal : Bool
  deriving Repr, DecidableEq

/-- JavaScript `x || 0` applied to a parseFloat result: NaN (`none`) and 0
are falsy and give 0; any other parsed value passes through. -/
def jsOr0 : Option ℚ → ℚ
  | none => 0
  | some q => if q = 0 then 0 else q

/-- One step of the `processedData` map: the row spread plus the computed
`Full Name`, `Date`, `Hours` and `Is Internal` fields. -/
def processRow (r : RawRow) : ProcessedRow :=
  { fullName := r.firstName ++ " " ++ r.lastName
    date := jsDateParse r.date
    client := r.client
    project := r.project
    task := r.task
    hours := jsOr0 (jsParseFloat r.hours)
    billable := r.billable
    isInternal := INTERNAL_CLIENTS.contains r.client }

/-- `processedData` from App.jsx, applied to the uploaded rows. -/
def processedData (rows : List RawRow) : List ProcessedRow :=
  rows.map processRow

/-- The row filter of `handleFileUpload`: `results.data.filter(row =>
row['Date'])` keeps exactly the rows whose Date field is present and
non-empty (a missing or empty Date string is falsy). -/
def handleFileUpload (rows : List RawRow) : List RawRow :=
  rows.filter (fun r => r.date ≠ "")

/-- A row whose Date field is the non-empty, unparsable string "hello". -/
def badDateRow : RawRow :=
  ⟨"hello", "Acme", "Proj", "Fix", "1", "Yes", "Ann", "Lee"⟩

/-- Counterexample to C1: the upload filter keeps a row with a non-empty but
unparsable date string, and the resulting entry carries an invalid (null)
date into the normalized output. -/
theorem processedData_invalid_date_cex :
    (processedData (handleFileUpload [badDateRow])).all
      (fun e => e.date.isSome) = false := by
  decide

/-- C1 amended: every entry output by the normalizer comes from an uploaded
row with a present (non-empty) date field — rows with a missing date are
dropped and surface no error — and whenever every present date string
actually parses, every output entry has a valid, non-null date. -/
theorem processedData_date_origin (rows : List RawRow) :
    (∀ e ∈ processedData (handleFileUpload rows),
        ∃ r ∈ rows, r.date ≠ "" ∧ e = processRow r) ∧
    ((∀ r ∈ rows, r.date ≠ "" → (jsDateParse r.date).isSome) →
      ∀ e ∈ processedData (handleFileUpload rows), e.date.isSome) := by
  constructor
  · intro e he
    simp only [processedData, List.mem_map, handleFileUpload,
      List.mem_filter, decide_eq_true_eq] at he
    obtain ⟨r, ⟨hr, hne⟩, rfl⟩ := he
    exact ⟨r, hr, hne, rfl⟩
  · intro hp e he
    simp only [processedData, List.mem_map, handleFileUpload,
      List.mem_filter, decide_eq_true_eq] at he
    obtain ⟨r, ⟨hr, hne⟩, rfl⟩ := he
    exact hp r hr hne

/-- A well-formed row used as a concrete witness input. -/
def goodRow : RawRow :=
  ⟨"2024-03-15", "Acme", "Proj", "Fix", "3.5", "Yes", "Ann", "Lee"⟩

/-- Witness for C1 amended, at the one-row input `goodRow`. -/
theorem processedData_date_origin_witness :
    ∀ e ∈ processedData (handleFileUpload [goodRow]), e.date.isSome :=
  (processedData_date_origin [goodRow]).2 (by decide)

/-- A row whose Hours string parses to a negative number. -/
def negHoursRow : RawRow :=
  ⟨"2024-03-15", "Acme", "Proj", "Fix", "-5", "Yes", "Ann", "Lee"⟩

/-- Counterexample to C8: `parseFloat("-5")` is `-5`, which is truthy, so the
normalized hours is `-5`, a negative number. -/
theorem processRow_negative_hours_cex :
    (processRow negHoursRow).hours = -5 ∧
      ¬ (0 ≤ (processRow negHoursRow).hours) := by
  have hscan : parseFloatScan "-5".toList = some (true, ['5'], []) := by decide
  have hd : digitsToNat ['5'] = 5 := by decide
  have h : (processRow negHoursRow).hours = -5 := by
    show jsOr0 (jsParseFloat "-5") = -5
    rw [jsParseFloat, hscan]
    norm_num [jsOr0, hd, fracVal]
  exact ⟨h, by rw [h]; norm_num⟩

/-- C8 amended: the normalized hours equals the parseFloat value of the raw
Hours string and defaults to 0 when that string is unparsable; it is
non-negative whenever the parsed value is non-negative (a raw string parsing
to a negative number, however, yields negative hours). -/
theorem processRow_hours_spec (r : RawRow) :
    (jsParseFloat r.hours = none → (processRow r).hours = 0) ∧
    (∀ q, jsParseFloat r.hours = some q → (processRow r).hours = q) ∧
    (∀ q, jsParseFloat r.hours = some q → 0 ≤ q →
      0 ≤ (processRow r).hours) := by
  refine ⟨fun h => ?_, fun q hq => ?_, fun q hq h0 => ?_⟩
  · simp [processRow, jsOr0, h]
  · by_cases hz : q = 0 <;> simp [processRow, jsOr0, hq, hz]
  · by_cases hz : q = 0 <;> simp [processRow, jsOr0, hq, hz, h0]

/-- Witness for C8 amended: `goodRow` has Hours string "3.5", which parses to
the rational 7/2. -/
theorem processRow_hours_spec_witness :
    (processRow goodRow).hours = 7 / 2 := by
  have hscan : parseFloatScan "3.5".toList = some (false, ['3'], ['5']) := by
    decide
  have hd : digitsToNat ['3'] = 3 := by decide
  have hc : '5'.toNat - 48 = 5 := by decide
  have hv : jsParseFloat goodRow.hours = some (7 / 2) := by
    show jsParseFloat "3.5" = some (7 / 2)
    rw [jsParseFloat, hscan]
    norm_num [hd, hc, fracVal]
  exact (processRow_hours_spec goodRow).2.1 (7 / 2) hv

/-- A normalized time entry of the working set: `date` is a valid day number
(the working-set invariant; possibly-invalid dates are treated at the
normalizer above), `billable` holds the raw `Billable?` column (the code
compares it with the literal "Yes" at each use) and `isInternal` is the flag
computed by the normalizer. -/
structure Entry where
  date : ℤ
  fullName : String
  client : String
  project : String
  task : String
  hours : ℚ
  billable : String
  isInternal : Bool
  deriving Repr, DecidableEq

/-- The filter-criteria snapshot: the five selection states of App.jsx. -/
structure Criteria where
  selectedEmployee : String
  selectedClient : String
  selectedProject : String
  selectedTask : String
  selectedDateRange : String
  deriving Repr, DecidableEq

/-- A criteria update, as fired by the five select controls. -/
inductive FilterEvent where
  | selEmployee (v : String)
  | selClient (v : String)
  | selProject (v : String)
  | selTask (v : String)
  | selRange (v : String)
  deriving Repr, DecidableEq

/-- The five onChange handlers: selecting a client also resets the selected
project and task to "all" in the same update, and selecting a project also
resets the selected task. -/
def applyEvent (st : Criteria) : FilterEvent → Criteria
  | .selEmployee v => { st with selectedEmployee := v }
  | .selClient v =>
      { st with selectedClient := v, selectedProject := "all",
                selectedTask := "all" }
  | .selProject v => { st with selectedProject := v, selectedTask := "all" }
  | .selTask v => { st with selectedTask := v }
  | .selRange v => { st with selectedDateRange := v }

/-- C6: in every sequence of criteria updates, a client selection resets
project and task to "all" in the same update and a project selection resets
task in the same update; in particular selecting a client, a project and a
task and then resetting the client to "all" yields project and task both
"all" simultaneously. -/
theorem filter_cascade (st : Criteria) (v c p t : String) :
    (applyEvent st (.selClient v)).selectedProject = "all" ∧
    (applyEvent st (.selClient v)).selectedTask = "all" ∧
    (applyEvent st (.selProject v)).selectedTask = "all" ∧
    (applyEvent (applyEvent (applyEvent (applyEvent st (.selClient c))
        (.selProject p)) (.selTask t)) (.selClient "all")).selectedClient
      = "all" ∧
    (applyEvent (applyEvent (applyEvent (applyEvent st (.selClient c))
        (.selProject p)) (.selTask t)) (.selClient "all")).selectedProject
      = "all" ∧
    (applyEvent (applyEvent (applyEvent (applyEvent st (.selClient c))
        (.selProject p)) (.selTask t)) (.selClient "all")).selectedTask
      = "all" :=
  ⟨rfl, rfl, rfl, rfl, rfl, rfl⟩

/-- JavaScript `Math.round`: round half toward positive infinity. -/
def jsRound (q : ℚ) : ℤ := ⌊q + 1 / 2⌋

/-- `differenceInDays` from App.jsx on instants measured in days (the
division by the `oneDay` millisecond constant is absorbed into the unit):
the rounded absolute difference. -/
def differenceInDays (t1 t2 : ℚ) : ℤ := jsRound |t1 - t2|

/-- The `ranges` preset lookup of `filteredData`; any other key is absent
(the "all" key is guarded before the lookup and is also absent). -/
def ranges (s : String) : Option ℤ :=
  if s = "week" then some 7
  else if s = "month" then some 30
  else if s = "quarter" then some 90
  else if s = "year" then some 365
  else none

/-- The date-range predicate of `filteredData`:
`daysDiff <= daysBack && daysDiff >= 0`. -/
def dateKeep (now : ℚ) (daysBack : ℤ) (e : Entry) : Bool :=
  decide (differenceInDays now (e.date : ℚ) ≤ daysBack) &&
    decide (0 ≤ differenceInDays now (e.date : ℚ))

/-- Insertion step of the stable date-descending sort performed by
`sort((a, b) => b['Date'] - a['Date'])`. -/
def insertDateDesc (e : Entry) : List Entry → List Entry
  | [] => [e]
  | x :: tl =>
    if e.date < x.date then x :: insertDateDesc e tl else e :: x :: tl

/-- Stable date-descending sort. -/
def sortDateDesc : List Entry → List Entry
  | [] => []
  | x :: tl => insertDateDesc x (sortDateDesc tl)

theorem mem_insertDateDesc (a e : Entry) (l : List Entry) :
    a ∈ insertDateDesc e l ↔ a = e ∨ a ∈ l := by
  induction l with
  | nil => simp [insertDateDesc]
  | cons x tl ih =>
    simp only [insertDateDesc]
    split
    · simp only [List.mem_cons, ih]
      exact or_left_comm
    · simp only [List.mem_cons]

theorem mem_sortDateDesc (a : Entry) (l : List Entry) :
    a ∈ sortDateDesc l ↔ a ∈ l := by
  induction l with
  | nil => simp [sortDateDesc]
  | cons x tl ih => simp [sortDateDesc, mem_insertDateDesc, ih]

/-- `filteredData` from App.jsx, with the JavaScript aliasing made explicit:
`filtered` starts as the `processedData` array itself, each applied
`Array.filter` replaces it by a fresh array, and the final `Array.sort`
mutates `filtered` in place. The first component is the pipeline result; the
second is the post-run state of the input array, which differs from the
input exactly when no criterion applied and the in-place sort reordered the
aliased array. -/
def filteredData (now : ℚ) (pd : List Entry) (c : Criteria) :
    List Entry × List Entry :=
  let s1 : List Entry × Bool :=
    if c.selectedEmployee ≠ "all" then
      (pd.filter (fun r => r.fullName == c.selectedEmployee), false)
    else (pd, true)
  let s2 : List Entry × Bool :=
    if c.selectedClient ≠ "all" then
      (s1.1.filter (fun r => r.client == c.selectedClient), false)
    else s1
  let s3 : List Entry × Bool :=
    if c.selectedProject ≠ "all" then
      (s2.1.filter (fun r => r.project == c.selectedProject), false)
    else s2
  let s4 : List Entry × Bool :=
    if c.selectedTask ≠ "all" then
      (s3.1.filter (fun r => r.task == c.selectedTask), false)
    else s3
  let s5 : List Entry × Bool :=
    if c.selectedDateRange ≠ "all" then
      match ranges c.selectedDateRange with
      | some daysBack => (s4.1.filter (dateKeep now daysBack), false)
      | none => s4
    else s4
  let sorted := sortDateDesc s5.1
  (sorted, if s5.2 then sorted else pd)

/-- C5: with the other criteria at "all" and a non-"all" preset, the filter
pipeline keeps an entry iff `daysDiff = round(|now - date|)` lies between 0
and the preset day count, and every preset maps to 7, 30, 90 or 365 days. -/
theorem filteredData_dateRange (now : ℚ) (pd : List Entry) (e : Entry)
    (r : String) (n : ℤ) (hr : ranges r = some n) :
    (n = 7 ∨ n = 30 ∨ n = 90 ∨ n = 365) ∧
    (e ∈ (filteredData now pd ⟨"all", "all", "all", "all", r⟩).1 ↔
      e ∈ pd ∧ 0 ≤ differenceInDays now (e.date : ℚ) ∧
        differenceInDays now (e.date : ℚ) ≤ n) := by
  have hral : r ≠ "all" := by
    rintro rfl
    simp [ranges] at hr
  constructor
  · unfold ranges at hr
    split_ifs at hr <;> simp_all
  · simp only [filteredData, ne_eq, hral, not_false_eq_true, if_pos, hr,
      not_true_eq_false, if_neg, reduceIte]
    simp [mem_sortDateDesc, List.mem_filter, dateKeep, and_comm]

/-- An entry dated exactly 7 days before the fixed instant 100. -/
def entry7 : Entry := ⟨93, "Ann Lee", "Acme", "Proj", "Fix", 8, "Yes", false⟩

/-- An entry dated exactly 8 days before the fixed instant 100. -/
def entry8 : Entry := ⟨92, "Ann Lee", "Acme", "Proj", "Fix", 8, "Yes", false⟩

/-- Witness for C5: under the last-7-days preset with `now` fixed at instant
100, the entry dated exactly 7 days before now is kept and the entry dated
exactly 8 days before now is dropped. -/
theorem filteredData_dateRange_witness :
    entry7 ∈ (filteredData 100 [entry7, entry8]
        ⟨"all", "all", "all", "all", "week"⟩).1 ∧
    entry8 ∉ (filteredData 100 [entry7, entry8]
        ⟨"all", "all", "all", "all", "week"⟩).1 := by
  have h7 : differenceInDays 100 ((entry7.date : ℤ) : ℚ) = 7 := by
    show jsRound |(100 : ℚ) - (93 : ℤ)| = 7
    rw [jsRound, show |(100 : ℚ) - (93 : ℤ)| = 7 by norm_num]
    rw [Int.floor_eq_iff]; norm_num
  have h8 : differenceInDays 100 ((entry8.date : ℤ) : ℚ) = 8 := by
    show jsRound |(100 : ℚ) - (92 : ℤ)| = 8
    rw [jsRound, show |(100 : ℚ) - (92 : ℤ)| = 8 by norm_num]
    rw [Int.floor_eq_iff]; norm_num
  constructor
  · exact (filteredData_dateRange 100 [entry7, entry8] entry7 "week" 7
      rfl).2.mpr ⟨by simp, by rw [h7]; norm_num, by rw [h7]⟩
  · intro hmem
    have h := (filteredData_dateRange 100 [entry7, entry8] entry8 "week" 7
      rfl).2.mp hmem
    rw [h8] at h
    omega

/-- The per-employee weekly accumulator of `weeklyUtilization`. The `days`
set of formatted dates is modelled as an insertion-ordered duplicate-free
list of day numbers. -/
structure WStats where
  hours : ℚ
  billableHours : ℚ
  internalHours : ℚ
  externalHours : ℚ
  days : List ℤ
  deriving Repr, DecidableEq

/-- Low-utilization alert test of `UtilizationAlert`: `hours < 30`. -/
def isLow (s : WStats) : Bool := decide (s.hours < 30)

/-- High-utilization alert test of `UtilizationAlert`: `hours > 45`. -/
def isHigh (s : WStats) : Bool := decide (45 < s.hours)

/-- C3: a weekly record is a low-utilization alert iff its hours are
strictly below 30 and a high-utilization alert iff strictly above 45; no
record is both; exactly 30.0 hours is not a low alert and exactly 45.0 hours
is not a high alert. -/
theorem alert_thresholds (s : WStats) :
    (isLow s = true ↔ s.hours < 30) ∧
    (isHigh s = true ↔ 45 < s.hours) ∧
    ¬ (isLow s = true ∧ isHigh s = true) ∧
    (s.hours = 30 → isLow s = false) ∧
    (s.hours = 45 → isHigh s = false) := by
  refine ⟨?_, ?_, ?_, ?_, ?_⟩
  · simp [isLow]
  · simp [isHigh]
  · rintro ⟨h1, h2⟩
    simp only [isLow, isHigh, decide_eq_true_eq] at h1 h2
    linarith
  · intro h
    simp only [isLow, h, decide_eq_false_iff_not]
    norm_num
  · intro h
    simp only [isHigh, h, decide_eq_false_iff_not]
    norm_num

/-- Witness for C3: a record with exactly 30 hours raises no low alert and a
record with exactly 45 hours raises no high alert. -/
theorem alert_thresholds_witness :
    isLow ⟨30, 0, 0, 0, []⟩ = false ∧ isHigh ⟨45, 0, 0, 0, []⟩ = false :=
  ⟨(alert_thresholds ⟨30, 0, 0, 0, []⟩).2.2.2.1 rfl,
   (alert_thresholds ⟨45, 0, 0, 0, []⟩).2.2.2.2 rfl⟩

/-- Recognition test of the Recent Shoutouts rendering:
`billableHours / hours > 0.9 && hours >= 35` (rational division; in
JavaScript a zero denominator gives NaN or Infinity, and in either case the
`hours >= 35` conjunct already fails when hours is 0, so the two models
agree on the conjunction). -/
def shoutoutQualifies (s : WStats) : Bool :=
  decide (9 / 10 < s.billableHours / s.hours) && decide (35 ≤ s.hours)

/-- C4: a weekly record qualifies for a shoutout iff its billable-to-total
ratio exceeds 0.90 and its hours are at least 35; a record with 0 hours
never qualifies. -/
theorem shoutout_thresholds (s : WStats) :
    (shoutoutQualifies s = true ↔
      (9 / 10 < s.billableHours / s.hours ∧ 35 ≤ s.hours)) ∧
    (s.hours = 0 → shoutoutQualifies s = false) := by
  constructor
  · simp [shoutoutQualifies]
  · intro h
    have h35 : ¬ (35 ≤ (0 : ℚ)) := by norm_num
    simp [shoutoutQualifies, h, h35]

/-- Witness for C4: a record with 0 hours never qualifies; a record with 40
hours all billable qualifies. -/
theorem shoutout_thresholds_witness :
    shoutoutQualifies ⟨0, 0, 0, 0, []⟩ = false ∧
    shoutoutQualifies ⟨40, 40, 0, 40, []⟩ = true :=
  ⟨(shoutout_thresholds ⟨0, 0, 0, 0, []⟩).2 rfl,
   (shoutout_thresholds ⟨40, 40, 0, 40, []⟩).1.mpr
     (by constructor <;> norm_num)⟩

/-- Update-or-append on an insertion-ordered association list (the shape of
a JavaScript object or Map used as a dictionary): apply `f` to the value at
key `k`, materialising the default `d` first when `k` is absent (the
`if (!obj[k]) obj[k] = init` idiom followed by an update). -/
def updAssoc {κ α : Type} [DecidableEq κ] (k : κ) (d : α) (f : α → α) :
    List (κ × α) → List (κ × α)
  | [] => [(k, f d)]
  | (k2, v) :: tl =>
    if k2 = k then (k2, f v) :: tl else (k2, v) :: updAssoc k d f tl

/-- Sum of a valuation over all values of an association list. -/
def sumAssoc {κ α M : Type} [AddCommMonoid M] (g : α → M)
    (l : List (κ × α)) : M :=
  (l.map (fun p => g p.2)).sum

theorem sumAssoc_nil {κ α M : Type} [AddCommMonoid M] (g : α → M) :
    sumAssoc g ([] : List (κ × α)) = 0 := rfl

theorem sumAssoc_cons {κ α M : Type} [AddCommMonoid M] (g : α → M)
    (p : κ × α) (l : List (κ × α)) :
    sumAssoc g (p :: l) = g p.2 + sumAssoc g l := by
  simp [sumAssoc]

/-- Updating one key of an association list adds `c` to the total of any
valuation that `f` grows by `c` and that vanishes on the default. -/
theorem sumAssoc_updAssoc {κ α M : Type} [DecidableEq κ] [AddCommMonoid M]
    (g : α → M) (k : κ) (d : α) (f : α → α) (c : M)
    (hf : ∀ a, g (f a) = g a + c) (hd : g d = 0) (l : List (κ × α)) :
    sumAssoc g (updAssoc k d f l) = sumAssoc g l + c := by
  induction l with
  | nil => simp [updAssoc, sumAssoc_cons, sumAssoc_nil, hf, hd]
  | cons p tl ih =>
    obtain ⟨k2, v⟩ := p
    simp only [updAssoc]
    by_cases h : k2 = k
    · rw [if_pos h, sumAssoc_cons, sumAssoc_cons, hf, add_right_comm]
    · rw [if_neg h, sumAssoc_cons, sumAssoc_cons, ih]
      exact (add_assoc _ _ _).symm

/-- A rollup leaf of `internalBreakdown`: accumulated hours, billable hours
and the ordered list of contributing entries. -/
structure Leaf where
  hours : ℚ
  billableHours : ℚ
  entries : List Entry
  deriving Repr, DecidableEq

/-- The freshly materialised leaf (`hours: 0, billableHours: 0, entries: []`). -/
def emptyLeaf : Leaf := ⟨0, 0, []⟩

/-- Accumulation of one entry into a leaf: `hours +=`, conditional
`billableHours +=`, `entries.push`. -/
def addEntryLeaf (e : Entry) (l : Leaf) : Leaf :=
  { hours := l.hours + e.hours
    billableHours :=
      if e.billable = "Yes" then l.billableHours + e.hours else l.billableHours
    entries := l.entries ++ [e] }

/-- The client → project → task rollup tree, as nested insertion-ordered
association lists. -/
abbrev Breakdown : Type := List (String × List (String × List (String × Leaf)))

/-- Insertion of one entry into the rollup, keyed by its own client, project
and task, substituting "No Project" and "No Task" for empty fields. -/
def insertBreakdown (b : Breakdown) (e : Entry) : Breakdown :=
  updAssoc e.client []
    (updAssoc (if e.project = "" then "No Project" else e.project) []
      (updAssoc (if e.task = "" then "No Task" else e.task) emptyLeaf
        (addEntryLeaf e))) b

/-- `internalData`: the filtered entries carrying the Is Internal flag. -/
def internalData (fd : List Entry) : List Entry :=
  fd.filter (fun r => r.isInternal)

/-- `internalBreakdown` from App.jsx over a filtered working set. -/
def internalBreakdown (fd : List Entry) : Breakdown :=
  (internalData fd).foldl insertBreakdown []

/-- Total leaf hours of one task map. -/
def leafHoursTask (tm : List (String × Leaf)) : ℚ := sumAssoc Leaf.hours tm

/-- Total leaf hours of one project map. -/
def leafHoursProject (pm : List (String × List (String × Leaf))) : ℚ :=
  sumAssoc leafHoursTask pm

/-- Total leaf hours of the whole rollup tree. -/
def leafHours (b : Breakdown) : ℚ := sumAssoc leafHoursProject b

/-- All contributing entries of one task map, as a multiset. -/
def leafEntriesTask (tm : List (String × Leaf)) : Multiset Entry :=
  sumAssoc (fun l => (l.entries : Multiset Entry)) tm

/-- All contributing entries of one project map. -/
def leafEntriesProject (pm : List (String × List (String × Leaf))) :
    Multiset Entry :=
  sumAssoc leafEntriesTask pm

/-- All contributing entries of the whole rollup tree. -/
def leafEntries (b : Breakdown) : Multiset Entry :=
  sumAssoc leafEntriesProject b

theorem leafHours_insertBreakdown (b : Breakdown) (e : Entry) :
    leafHours (insertBreakdown b e) = leafHours b + e.hours := by
  have h1 : ∀ l : Leaf,
      Leaf.hours (addEntryLeaf e l) = Leaf.hours l + e.hours :=
    fun l => rfl
  have h2 : ∀ tm : List (String × Leaf),
      leafHoursTask (updAssoc (if e.task = "" then "No Task" else e.task)
          emptyLeaf (addEntryLeaf e) tm)
        = leafHoursTask tm + e.hours :=
    fun tm => sumAssoc_updAssoc Leaf.hours
      (if e.task = "" then "No Task" else e.task) emptyLeaf
      (addEntryLeaf e) e.hours h1 (by rfl) tm
  have h3 : ∀ pm : List (String × List (String × Leaf)),
      leafHoursProject
          (updAssoc (if e.project = "" then "No Project" else e.project) []
            (updAssoc (if e.task = "" then "No Task" else e.task) emptyLeaf
              (addEntryLeaf e)) pm)
        = leafHoursProject pm + e.hours :=
    fun pm => sumAssoc_updAssoc leafHoursTask
      (if e.project = "" then "No Project" else e.project) []
      (updAssoc (if e.task = "" then "No Task" else e.task) emptyLeaf
        (addEntryLeaf e)) e.hours h2 (by rfl) pm
  exact sumAssoc_updAssoc leafHoursProject e.client []
    (updAssoc (if e.project = "" then "No Project" else e.project) []
      (updAssoc (if e.task = "" then "No Task" else e.task) emptyLeaf
        (addEntryLeaf e))) e.hours h3 (by rfl) b

theorem leafEntries_insertBreakdown (b : Breakdown) (e : Entry) :
    leafEntries (insertBreakdown b e) = leafEntries b + {e} := by
  have h1 : ∀ l : Leaf,
      ((addEntryLeaf e l).entries : Multiset Entry)
        = (l.entries : Multiset Entry) + {e} :=
    fun l => by
      show ((l.entries ++ [e] : List Entry) : Multiset Entry)
        = ↑l.entries + {e}
      rw [← Multiset.coe_singleton e, Multiset.coe_add]
  have h2 : ∀ tm : List (String × Leaf),
      leafEntriesTask (updAssoc (if e.task = "" then "No Task" else e.task)
          emptyLeaf (addEntryLeaf e) tm)
        = leafEntriesTask tm + {e} :=
    fun tm => sumAssoc_updAssoc
      (fun l : Leaf => (l.entries : Multiset Entry))
      (if e.task = "" then "No Task" else e.task) emptyLeaf
      (addEntryLeaf e) {e} h1 (by rfl) tm
  have h3 : ∀ pm : List (String × List (String × Leaf)),
      leafEntriesProject
          (updAssoc (if e.project = "" then "No Project" else e.project) []
            (updAssoc (if e.task = "" then "No Task" else e.task) emptyLeaf
              (addEntryLeaf e)) pm)
        = leafEntriesProject pm + {e} :=
    fun pm => sumAssoc_updAssoc leafEntriesTask
      (if e.project = "" then "No Project" else e.project) []
      (updAssoc (if e.task = "" then "No Task" else e.task) emptyLeaf
        (addEntryLeaf e)) {e} h2 (by rfl) pm
  exact sumAssoc_updAssoc leafEntriesProject e.client []
    (updAssoc (if e.project = "" then "No Project" else e.project) []
      (updAssoc (if e.task = "" then "No Task" else e.task) emptyLeaf
        (addEntryLeaf e))) {e} h3 (by rfl) b

theorem leafHours_foldl (l : List Entry) (b : Breakdown) :
    leafHours (l.foldl insertBreakdown b)
      = leafHours b + (l.map Entry.hours).sum := by
  induction l generalizing b with
  | nil => simp
  | cons e tl ih =>
    simp only [List.foldl_cons, ih, leafHours_insertBreakdown, List.map_cons,
      List.sum_cons]
    rw [add_assoc, add_comm e.hours]

theorem leafEntries_foldl (l : List Entry) (b : Breakdown) :
    leafEntries (l.foldl insertBreakdown b) = leafEntries b + ↑l := by
  induction l generalizing b with
  | nil => simp
  | cons e tl ih =>
    simp only [List.foldl_cons, ih, leafEntries_insertBreakdown]
    rw [add_assoc, Multiset.singleton_add, Multiset.cons_coe]

/-- C7: only the filtered entries with `isInternal = true` populate the
rollup tree, each such entry lands in exactly one leaf (the multiset of all
leaf entries equals the multiset of internal filtered entries), and the sum
of leaf hours over the whole tree equals the sum of hours over the internal
filtered entries. -/
theorem internalBreakdown_complete (fd : List Entry) :
    leafHours (internalBreakdown fd)
      = ((fd.filter (fun e => e.isInternal)).map Entry.hours).sum ∧
    leafEntries (internalBreakdown fd)
      = ↑(fd.filter (fun e => e.isInternal)) := by
  constructor
  · rw [internalBreakdown, leafHours_foldl]
    simp [internalData, leafHours, sumAssoc_nil]
  · rw [internalBreakdown, leafEntries_foldl]
    simp [internalData, leafEntries, sumAssoc_nil]

/-- The freshly materialised weekly record
(`hours: 0, billableHours: 0, internalHours: 0, externalHours: 0,
days: new Set()`). -/
def emptyWStats : WStats := ⟨0, 0, 0, 0, []⟩

/-- JavaScript `Set.add` on the modelled days list: append when absent. -/
def addDay (d : ℤ) (days : List ℤ) : List ℤ :=
  if d ∈ days then days else days ++ [d]

/-- Accumulation of one entry into a weekly per-employee record. -/
def updWStats (e : Entry) (s : WStats) : WStats :=
  { hours := s.hours + e.hours
    billableHours :=
      if e.billable = "Yes" then s.billableHours + e.hours else s.billableHours
    internalHours :=
      if e.isInternal then s.internalHours + e.hours else s.internalHours
    externalHours :=
      if e.isInternal then s.externalHours else s.externalHours + e.hours
    days := addDay e.date s.days }

/-- The nested week → employee map of `weeklyUtilization`; the week key is
the week-start day number, in bijection with the formatted `yyyy-MM-dd`
string key of the code. -/
abbrev WeekMap : Type := List (ℤ × List (String × WStats))

/-- Insertion of one entry into the week map. -/
def insertWeekly (m : WeekMap) (e : Entry) : WeekMap :=
  updAssoc (startOfWeek e.date) []
    (updAssoc e.fullName emptyWStats (updWStats e)) m

/-- Insertion step of the week-descending sort
(`sort(([a], [b]) => new Date(b) - new Date(a))` on the week keys). -/
def insertWeekDesc (p : ℤ × List (String × WStats)) : WeekMap → WeekMap
  | [] => [p]
  | x :: tl => if p.1 < x.1 then x :: insertWeekDesc p tl else p :: x :: tl

/-- Week-descending sort, newest week first. -/
def sortWeeksDesc : WeekMap → WeekMap
  | [] => []
  | x :: tl => insertWeekDesc x (sortWeeksDesc tl)

/-- `weeklyUtilization` from App.jsx over a filtered working set. -/
def weeklyUtilization (fd : List Entry) : WeekMap :=
  sortWeeksDesc (fd.foldl insertWeekly [])

/-- The Recent Shoutouts computation: `weeklyUtilization.slice(0, 3)`
(the three newest weekly buckets), each qualifying (employee, stats) pair
producing one shoutout tagged by its week. -/
def recentShoutouts (fd : List Entry) : List (ℤ × String × WStats) :=
  ((weeklyUtilization fd).take 3).flatMap
    (fun p => (p.2.filter (fun q => shoutoutQualifies q.2)).map
      (fun q => (p.1, q.1, q.2)))

/-- C10: shoutouts are drawn only from the three newest weekly buckets; a
record whose week key is not among the first three week keys of the sorted
weekly sequence produces no shoutout even when it meets the recognition
thresholds. -/
theorem recentShoutouts_three_weeks (fd : List Entry) (w : ℤ)
    (emp : String) (s : WStats) (_hq : shoutoutQualifies s = true)
    (hw : w ∉ ((weeklyUtilization fd).take 3).map Prod.fst) :
    (w, emp, s) ∉ recentShoutouts fd := by
  intro hmem
  simp only [recentShoutouts, List.mem_flatMap, List.mem_map,
    List.mem_filter] at hmem
  obtain ⟨p, hp, q, hq2, heq⟩ := hmem
  exact hw (List.mem_map.mpr ⟨p, hp, congrArg Prod.fst heq⟩)

/-- An all-billable 40-hour entry on Monday day number `d`. -/
def wEntry (d : ℤ) : Entry := ⟨d, "Ann Lee", "Acme", "Proj", "Fix", 40, "Yes", false⟩

/-- Four entries on four consecutive Mondays (day numbers 4, 11, 18, 25 are
all Mondays), newest first. -/
def fdWeeks : List Entry := [wEntry 25, wEntry 18, wEntry 11, wEntry 4]

/-- Witness for C10: the week of day 4 is the fourth-newest bucket of
`fdWeeks`, so its qualifying 40-hour all-billable record produces no
shoutout. -/
theorem recentShoutouts_three_weeks_witness :
    (4, "Ann Lee", (⟨40, 40, 0, 40, [4]⟩ : WStats)) ∉ recentShoutouts fdWeeks := by
  apply recentShoutouts_three_weeks
  · show (decide ((9 : ℚ) / 10 < 40 / 40) && decide ((35 : ℚ) ≤ 40)) = true
    norm_num
  · decide

/-- An entry dated day 10, earlier than `entryB`. -/
def entryA : Entry := ⟨10, "Ann Lee", "Acme", "Proj", "Fix", 1, "Yes", false⟩

/-- An entry dated day 20, later than `entryA`. -/
def entryB : Entry := ⟨20, "Ann Lee", "Acme", "Proj", "Fix", 2, "Yes", false⟩

/-- The all-"all" criteria snapshot (the default state after an upload). -/
def allCriteria : Criteria := ⟨"all", "all", "all", "all", "all"⟩

/-- C9 fails on the code: with every criterion at "all" no `Array.filter`
runs, so `filtered` is still the `processedData` array itself when the
in-place `Array.sort` runs; on an input that is not already sorted
date-descending, the normalized entry sequence is reordered in place
instead of being left unchanged. -/
theorem filteredData_mutates_aliased_input :
    (filteredData 100 [entryA, entryB] allCriteria).2 = [entryB, entryA] ∧
    (filteredData 100 [entryA, entryB] allCriteria).2 ≠ [entryA, entryB] := by
  have h1 : (filteredData 100 [entryA, entryB] allCriteria).2
      = [entryB, entryA] := rfl
  refine ⟨h1, ?_⟩
  rw [h1]
  decide

end Harvest
